import Mathlib

/-!
Shallow embedding of the spreadsheet append & reconciliation engine of the
auto-trading-journal program (`src/modules/sheet_writer.py`,
`src/modules/sheet_manager.py`, `src/modules/models.py`, `src/main.py`),
together with proofs settling the specification claims about it.

Python strings are modelled as `String`, Python numbers (int/float) as `ℚ`,
Python `None`/absent values as `Option`.  The binary nature of IEEE floats is
not modelled: every arithmetic the claims touch is exact over `ℚ`, matching
the spec's "within floating-point tolerance" reading.
-/

/-- Python scalar cell value handled by the journal: a string or a number.
Numbers are modelled as rationals; Python distinguishes int and float, but
every embedded routine renders an integral value through `str(int(v))`, so the
two collapse to one case. -/
inductive PyVal where
  | pstr (s : String)
  | pnum (q : ℚ)
deriving DecidableEq, Repr

/-- Decimal digit characters, as produced by Python number rendering. -/
def digitChar (d : Nat) : Char :=
  match d with
  | 0 => '0' | 1 => '1' | 2 => '2' | 3 => '3' | 4 => '4'
  | 5 => '5' | 6 => '6' | 7 => '7' | 8 => '8' | _ => '9'

/-- Digits of a natural number, most significant first; fuel-based recursion
(fuel `n + 1` always suffices). Models Python `str` on nonnegative ints. -/
def natStrAux : Nat → Nat → List Char → List Char
  | 0, _, acc => acc
  | fuel + 1, n, acc =>
    if n = 0 then acc else natStrAux fuel (n / 10) (digitChar (n % 10) :: acc)

/-- Python `str` on a natural number. -/
def natStr (n : Nat) : String := if n = 0 then "0" else ⟨natStrAux (n + 1) n []⟩

/-- Python `str` on an integer. -/
def intStr (z : Int) : String :=
  if z < 0 then "-" ++ natStr z.natAbs else natStr z.natAbs

/-- Fractional digits of `r / d` by long division, bounded fuel. -/
def fracDigits : Nat → Nat → Nat → List Char
  | _, _, 0 => []
  | r, d, fuel + 1 =>
    if r = 0 then [] else digitChar (r * 10 / d) :: fracDigits (r * 10 % d) d fuel

/-- Models Python `str` on a float: sign, integer part, a dot, fractional
digits ("2.0" for integral floats).  The shortest-roundtrip subtlety of binary
floats is not modelled; no claim depends on the exact digits of a
non-terminating expansion, only on the string containing no comma. -/
def pyFloatRepr (q : ℚ) : String :=
  (if q < 0 then "-" else "") ++ natStr (q.num.natAbs / q.den) ++ "." ++
    (if q.num.natAbs % q.den = 0 then "0"
     else String.mk (fracDigits (q.num.natAbs % q.den) q.den 30))

/-- Python `str(v).replace(",", "")`: strip every thousands-separator comma. -/
def stripCommas (s : String) : String := ⟨s.data.filter (fun c => c ≠ ',')⟩

/-- `sheet_writer._normalize_num`: normalize one cell value to the
duplicate-key string form.  `None` becomes `""`; a number becomes
`str(int(v))` when it is integral (`v == int(v)`) else `str(v)`; a string has
its commas stripped.  Integrality of `q : ℚ` is `q.den = 1`. -/
def _normalize_num : Option PyVal → String
  | none => ""
  | some (.pnum q) => if q.den = 1 then intStr q.num else pyFloatRepr q
  | some (.pstr s) => stripCommas s

/-- `models.Trade`: the trade record (strings as-is, numbers as rationals). -/
structure Trade where
  date : String
  trade_type : String
  stock_name : String
  stock_code : String
  quantity : ℚ
  price : ℚ
  amount : ℚ
  currency : String
  exchange_rate : ℚ
  amount_krw : ℚ
  fee : ℚ
  tax : ℚ
  profit : ℚ
  profit_krw : ℚ
  profit_rate : ℚ
  account : String
deriving DecidableEq, Repr

/-- `Trade._num_str`: render a number to the sheet-matching string form,
`str(int(v))` when `v == int(v)` else `str(v)`. -/
def Trade._num_str (v : ℚ) : String :=
  if v.den = 1 then intStr v.num else pyFloatRepr v

/-- `Trade.duplicate_key`: (date, type, name, quantity string, price string). -/
def Trade.duplicate_key (t : Trade) : String × String × String × String × String :=
  (t.date, t.trade_type, t.stock_name, Trade._num_str t.quantity, Trade._num_str t.price)

/-- Python `sub in s` on strings, via character-list infix test. -/
def strContains (s sub : String) : Bool := decide (sub.data <:+: s.data)

/-- `Trade.is_foreign`: the account name contains the foreign marker. -/
def Trade.is_foreign (t : Trade) : Bool := strContains t.account "해외"

/-- `Trade.to_domestic_row` (9 columns); the profit rate is written as a
fraction of 100 when truthy (nonzero), else the literal 0. -/
def Trade.to_domestic_row (t : Trade) : List PyVal :=
  [.pstr t.date, .pstr t.trade_type, .pstr t.stock_name,
   .pnum t.quantity, .pnum t.price, .pnum t.amount,
   .pnum t.fee, .pnum t.profit,
   .pnum (if t.profit_rate = 0 then 0 else t.profit_rate / 100)]

/-- `Trade.to_foreign_row` (15 columns); same profit-rate convention. -/
def Trade.to_foreign_row (t : Trade) : List PyVal :=
  [.pstr t.date, .pstr t.trade_type, .pstr t.currency, .pstr t.stock_code,
   .pstr t.stock_name, .pnum t.quantity, .pnum t.price, .pnum t.amount,
   .pnum t.exchange_rate, .pnum t.amount_krw,
   .pnum t.fee, .pnum t.tax, .pnum t.profit, .pnum t.profit_krw,
   .pnum (if t.profit_rate = 0 then 0 else t.profit_rate / 100)]

/-- `Trade.to_sheet_row`: pick the row shape from the account kind. -/
def Trade.to_sheet_row (t : Trade) : List PyVal :=
  if t.is_foreign then t.to_foreign_row else t.to_domestic_row

/-- Effective (typed) value of one grid cell: the Sheets tagged union of
string, number and boolean. -/
inductive EffVal where
  | str (s : String)
  | num (q : ℚ)
  | bool (b : Bool)
deriving DecidableEq, Repr

/-- One grid-cell snapshot: the effective value and the display-formatted
value, either possibly absent. -/
structure Cell where
  eff : Option EffVal := none
  formatted : Option String := none
deriving DecidableEq, Repr

instance : Inhabited Cell := ⟨{}⟩

/-- A grid row is its (possibly short) list of cells. -/
abbrev GridRow := List Cell

/-- A cell counts as data when its `effectiveValue` has any of the three
kinds (`numberValue`, `stringValue`, `boolValue`). -/
def cellHasValue (c : Cell) : Bool := c.eff.isSome

/-- A row is empty when no cell in it has an effective value. -/
def rowIsEmpty (r : GridRow) : Bool := r.all (fun c => !cellHasValue c)

/-- Stage 1 of `SheetManager.find_last_row_with_column_info` (also the body of
`SheetManager.find_last_row` and `SheetWriter.find_last_row`): walk rows with
a 1-based counter, remember the last non-empty row (header row 1 as floor),
and stop once `empty_row_threshold` consecutive empty rows are seen. -/
def lastDataRowAux (t : Nat) : List GridRow → Nat → Nat → Nat → Nat
  | [], _, last, _ => last
  | r :: rs, i, last, streak =>
    if rowIsEmpty r then
      if t ≤ streak + 1 then last else lastDataRowAux t rs (i + 1) last (streak + 1)
    else lastDataRowAux t rs (i + 1) i 0

/-- Python `str.strip()`: drop leading and trailing whitespace. -/
def pyStrip (s : String) : String :=
  ⟨(((s.data.dropWhile Char.isWhitespace).reverse).dropWhile Char.isWhitespace).reverse⟩

/-- Stage 2 cell test: the effective value is present and its Python string
form is not blank (`str(actual_value).strip() != ''`).  Only a string value
can be blank; numbers and booleans always render non-blank. -/
def cellNonBlank (c : Cell) : Bool :=
  match c.eff with
  | some (.str s) => !(pyStrip s = "")
  | some (.num _) => true
  | some (.bool _) => true
  | none => false

/-- Stage 2 of `find_last_row_with_column_info`: first and last 1-based column
of the non-blank cells of one row (`none` when the row has no such cell). -/
def rowColSpanAux : List Cell → Nat → Option (Nat × Nat) → Option (Nat × Nat)
  | [], _, acc => acc
  | c :: cs, i, acc =>
    if cellNonBlank c then
      match acc with
      | none => rowColSpanAux cs (i + 1) (some (i, i))
      | some (s, _) => rowColSpanAux cs (i + 1) (some (s, i))
    else rowColSpanAux cs (i + 1) acc

def rowColSpan (cells : List Cell) : Option (Nat × Nat) :=
  rowColSpanAux cells 1 none

/-- Column-window defaults of `find_last_row_with_column_info`: start column
defaults to 2, and an end column below the start is widened to start + 7. -/
def applyColDefaults : Option (Nat × Nat) → Nat × Nat
  | none => (2, 2 + 7)
  | some (s, e) => (s, if e < s then s + 7 else e)

/-- `SheetManager.find_last_row_with_column_info`, pure core: from a fetched
grid snapshot compute (last data row + 1, start column, end column); the
column span is read off the last data row itself when it lies inside the
fetched rows, with the documented defaults applied afterwards. -/
def find_last_row_with_column_info (t : Nat) (rows : List GridRow) : Nat × Nat × Nat :=
  (lastDataRowAux t rows 1 1 0 + 1,
   applyColDefaults
     (if 0 < lastDataRowAux t rows 1 1 0 ∧ lastDataRowAux t rows 1 1 0 ≤ rows.length
      then rowColSpan (rows.getD (lastDataRowAux t rows 1 1 0 - 1) [])
      else none))

/-- `SheetWriter.find_last_row`, pure core: same stage-1 walk with the
hard-coded threshold 100, returning last data row + 1. -/
def writer_find_last_row (rows : List GridRow) : Nat :=
  lastDataRowAux 100 rows 1 1 0 + 1

/-- `_get_cell_value` inside `SheetWriter.get_existing_keys`:
`ev.get("stringValue") or ev.get("numberValue")` — an empty string is falsy
and falls through to the (absent) number; booleans are never extracted. -/
def _get_cell_value (c : Cell) : Option PyVal :=
  match c.eff with
  | some (.str s) => if s = "" then none else some (.pstr s)
  | some (.num q) => some (.pnum q)
  | some (.bool _) => none
  | none => none

/-- Python `str(_get_cell_value(cell) or "")`: `None` and falsy values give
`""`; a number renders through `str(float)`. -/
def pyStrOfOptVal : Option PyVal → String
  | none => ""
  | some (.pstr s) => s
  | some (.pnum q) => if q = 0 then "" else pyFloatRepr q

/-- Per-row key extraction of `SheetWriter.get_existing_keys`: rows shorter
than 5 cells or with a blank formatted date contribute nothing; the date comes
from `formattedValue`, the rest from `effectiveValue`; foreign sheets with at
least 7 cells use columns 4, 5, 6 for name/quantity/price, otherwise columns
2, 3, 4 apply. -/
def getExistingKeysRow (is_foreign : Bool) (cells : List Cell) :
    Option (String × String × String × String × String) :=
  if 5 ≤ cells.length then
    let dateVal := (cells.getD 0 default).formatted.getD ""
    if dateVal = "" then none
    else
      let tradeType := pyStrOfOptVal (_get_cell_value (cells.getD 1 default))
      if is_foreign ∧ 7 ≤ cells.length then
        some (dateVal, tradeType,
          pyStrOfOptVal (_get_cell_value (cells.getD 4 default)),
          _normalize_num (_get_cell_value (cells.getD 5 default)),
          _normalize_num (_get_cell_value (cells.getD 6 default)))
      else
        some (dateVal, tradeType,
          pyStrOfOptVal (_get_cell_value (cells.getD 2 default)),
          _normalize_num (_get_cell_value (cells.getD 3 default)),
          _normalize_num (_get_cell_value (cells.getD 4 default)))
  else none

/-- Key set built by `SheetWriter.get_existing_keys` from fetched rows
(Python `set` modelled as the list of contributed keys). -/
def get_existing_keys_rows (is_foreign : Bool) (rows : List GridRow) :
    List (String × String × String × String × String) :=
  rows.filterMap (getExistingKeysRow is_foreign)

/-- `SheetWriter.get_existing_keys` with its failure semantics: a failed read
yields the empty key set and an error log (second component `true`); nothing
is raised (the function is total). -/
def get_existing_keys (is_foreign : Bool) (fetch : Except String (List GridRow)) :
    List (String × String × String × String × String) × Bool :=
  match fetch with
  | Except.ok rows => (get_existing_keys_rows is_foreign rows, false)
  | Except.error _ => ([], true)

/-- Per-row extraction of `SheetManager.check_duplicates`: rows with at least
3 cells contribute (stock name from column A's effective string value, date
from column C's effective string value), both required truthy. -/
def checkDupRowPair (cells : List Cell) : Option (String × String) :=
  if 3 ≤ cells.length then
    let nameOpt := (cells.getD 0 default).eff.map (fun v =>
      match v with | .str s => s | _ => "")
    let dateOpt := (cells.getD 2 default).eff.map (fun v =>
      match v with | .str s => s | _ => "")
    match nameOpt, dateOpt with
    | some n, some d => if n ≠ "" ∧ d ≠ "" then some (n, d) else none
    | _, _ => none
  else none

/-- Existing-trade pairs collected by `SheetManager.check_duplicates`. -/
def existing_pairs (rows : List GridRow) : List (String × String) :=
  rows.filterMap checkDupRowPair

/-- Index set returned by `SheetManager.check_duplicates`: positions of the
new trades whose (stock name, date) pair already appears on the sheet. -/
def check_duplicates_indices (pairs : List (String × String)) (trades : List Trade) :
    List Nat :=
  (trades.enum.filter (fun p => (p.2.stock_name, p.2.date) ∈ pairs)).map Prod.fst

/-- `SheetManager.check_duplicates` with its failure semantics: a failed read
yields no duplicate indices and an error log (second component `true`). -/
def check_duplicates (fetch : Except String (List GridRow)) (trades : List Trade) :
    List Nat × Bool :=
  match fetch with
  | Except.ok rows => (check_duplicates_indices (existing_pairs rows) trades, false)
  | Except.error _ => ([], true)

/-- The caller-side filter in `StockDataProcessor.process_trading_log`:
`[t for i, t in enumerate(trades) if i not in duplicate_indices]`. -/
def non_duplicate_trades (trades : List Trade) (dup : List Nat) : List Trade :=
  (trades.enum.filter (fun p => p.1 ∉ dup)).map Prod.snd

/-- Row-width fitting shared by `SheetWriter.insert_trades` and
`SheetManager.batch_insert_trades`: truncate a wider row, right-pad a narrower
one with empty strings. -/
def fit_row (row : List PyVal) (n : Nat) : List PyVal :=
  if n < row.length then row.take n
  else if row.length < n then row ++ List.replicate (n - row.length) (.pstr "")
  else row

/-- Payload built by `SheetWriter.insert_trades`: one fitted row per trade,
against the layout width 15 (foreign) or 9 (domestic). -/
def insert_trades_rows (trades : List Trade) (is_foreign : Bool) : List (List PyVal) :=
  let numCols := if is_foreign then 15 else 9
  trades.map (fun t => fit_row (if is_foreign then t.to_foreign_row else t.to_domestic_row) numCols)

/-- Payload built by `SheetManager.batch_insert_trades` for one trade group,
against the detected column-window width. -/
def batch_rows_data (trades : List Trade) (num_cols : Nat) : List (List PyVal) :=
  trades.map (fun t => fit_row t.to_sheet_row num_cols)

/-- `sheet_writer._get_num`: the effective number value, defaulting to 0. -/
def _get_num (c : Cell) : ℚ :=
  match c.eff with
  | some (.num q) => q
  | _ => 0

/-- `sheet_writer._get_str`: the effective string value, defaulting to "". -/
def _get_str (c : Cell) : String :=
  match c.eff with
  | some (.str s) => s
  | _ => ""

/-- `sheet_writer._row_to_trade`: rebuild a `Trade` from one grid row; an
out-of-range column access (row shorter than the layout) is the caught
`IndexError`, modelled as `none`.  The profit rate read from the sheet is
multiplied back by 100. -/
def _row_to_trade (values : List Cell) (sheet_name : String) (is_foreign : Bool)
    (date_val : String) : Option Trade :=
  if is_foreign then
    if 15 ≤ values.length then
      some { date := date_val
             trade_type := _get_str (values.getD 1 default)
             stock_name := _get_str (values.getD 4 default)
             stock_code := _get_str (values.getD 3 default)
             quantity := _get_num (values.getD 5 default)
             price := _get_num (values.getD 6 default)
             amount := _get_num (values.getD 7 default)
             currency := _get_str (values.getD 2 default)
             exchange_rate := _get_num (values.getD 8 default)
             amount_krw := _get_num (values.getD 9 default)
             fee := _get_num (values.getD 10 default)
             tax := _get_num (values.getD 11 default)
             profit := _get_num (values.getD 12 default)
             profit_krw := _get_num (values.getD 13 default)
             profit_rate := _get_num (values.getD 14 default) * 100
             account := sheet_name }
    else none
  else
    if 9 ≤ values.length then
      some { date := date_val
             trade_type := _get_str (values.getD 1 default)
             stock_name := _get_str (values.getD 2 default)
             stock_code := ""
             quantity := _get_num (values.getD 3 default)
             price := _get_num (values.getD 4 default)
             amount := _get_num (values.getD 5 default)
             currency := "KRW"
             exchange_rate := 1
             amount_krw := _get_num (values.getD 5 default)
             fee := _get_num (values.getD 6 default)
             tax := 0
             profit := _get_num (values.getD 7 default)
             profit_krw := _get_num (values.getD 7 default)
             profit_rate := _get_num (values.getD 8 default) * 100
             account := sheet_name }
    else none

/-- Round-trip model of the backing store for one written scalar: a string is
stored as a string effective value whose display equals the string (the date
column relies on this); a number is stored as a number effective value (its
locale-formatted display is not modelled and never read). -/
def cellOfScalar : PyVal → Cell
  | .pstr v => { eff := some (.str v), formatted := some v }
  | .pnum v => { eff := some (.num v), formatted := none }

/-- Cells of a domestic sheet row as written by `insert_trades`. -/
def write_domestic_cells (t : Trade) : List Cell :=
  t.to_domestic_row.map cellOfScalar

/-- Cells of a foreign sheet row as written by `insert_trades`. -/
def write_foreign_cells (t : Trade) : List Cell :=
  t.to_foreign_row.map cellOfScalar

/-- Per-row body of `SheetWriter._read_trades_from_sheet`: take the date from
the first cell's formatted value, skip the row when it is blank, otherwise
rebuild the trade. -/
def read_row (cells : List Cell) (account : String) (is_foreign : Bool) : Option Trade :=
  let dv := (cells.getD 0 default).formatted.getD ""
  if dv = "" then none else _row_to_trade cells account is_foreign dv

/-- NFC-dedup guard of `SheetWriter.read_all_trades`: process sheet names in
order, skipping any name whose NFC normalization was already seen.  The
normalization itself (`unicodedata.normalize("NFC", ·)`) is an external pure
function, taken as a parameter. -/
def readSheetNamesAux (nfc : String → String) : List String → List String → List String
  | [], _ => []
  | n :: ns, seen =>
    if nfc n ∈ seen then readSheetNamesAux nfc ns seen
    else n :: readSheetNamesAux nfc ns (nfc n :: seen)

/-- Sheet names `read_all_trades` actually proceeds to read, in order. -/
def read_sheet_names (nfc : String → String) (names : List String) : List String :=
  readSheetNamesAux nfc names []

/-- Prefix of a grid that the stage-1 scan can ever look at: cut at the first
run of `t` consecutive empty rows (the breaking row included), threading the
running streak. -/
def truncAtGap (t : Nat) : List GridRow → Nat → List GridRow
  | [], _ => []
  | r :: rs, streak =>
    if rowIsEmpty r then
      if t ≤ streak + 1 then [r] else r :: truncAtGap t rs (streak + 1)
    else r :: truncAtGap t rs 0

/-- Last non-empty 1-based row index of a grid, row 1 as floor: the
threshold-free reading of the stage-1 scan. -/
def lastNonEmptyFoldAux : List GridRow → Nat → Nat → Nat
  | [], _, last => last
  | r :: rs, i, last => lastNonEmptyFoldAux rs (i + 1) (if rowIsEmpty r then last else i)

def lastNonEmptyIdx (rows : List GridRow) : Nat :=
  lastNonEmptyFoldAux rows 1 1


/-! ## Helper lemmas -/

theorem length_filter_add_length_filter_not {α : Type} (p : α → Bool) (l : List α) :
    (l.filter p).length + (l.filter (fun a => !p a)).length = l.length := by
  induction l with
  | nil => rfl
  | cons a l ih =>
    by_cases h : p a = true <;> simp [List.filter_cons, h] <;> omega

theorem enumFrom_filter_snd {α : Type} (P : α → Bool) :
    ∀ (l : List α) (n : Nat),
      ((List.enumFrom n l).filter (fun p => P p.2)).map Prod.snd = l.filter P := by
  intro l
  induction l with
  | nil => intro n; rfl
  | cons a l ih =>
    intro n
    by_cases h : P a = true <;> simp [List.enumFrom_cons, List.filter_cons, h, ih]

theorem mem_enumFrom_le {α : Type} :
    ∀ (l : List α) (n : Nat) (p : Nat × α), p ∈ List.enumFrom n l → n ≤ p.1 := by
  intro l
  induction l with
  | nil => intro n p h; simp at h
  | cons a l ih =>
    intro n p h
    rw [List.enumFrom_cons] at h
    rcases List.mem_cons.mp h with h | h
    · subst h; exact Nat.le_refl n
    · exact Nat.le_of_succ_le (ih (n + 1) p h)

theorem enumFrom_fst_inj {α : Type} :
    ∀ (l : List α) (n : Nat) (p q : Nat × α),
      p ∈ List.enumFrom n l → q ∈ List.enumFrom n l → p.1 = q.1 → p = q := by
  intro l
  induction l with
  | nil => intro n p q hp; simp at hp
  | cons a l ih =>
    intro n p q hp hq hfst
    rw [List.enumFrom_cons] at hp hq
    rcases List.mem_cons.mp hp with hp | hp <;> rcases List.mem_cons.mp hq with hq | hq
    · rw [hp, hq]
    · exfalso; subst hp; have := mem_enumFrom_le l (n + 1) q hq; omega
    · exfalso; subst hq; have := mem_enumFrom_le l (n + 1) p hp; omega
    · exact ih (n + 1) p q hp hq hfst

theorem enum_eq_enumFrom_zero {α : Type} (l : List α) : l.enum = List.enumFrom 0 l := rfl

theorem mem_dup_iff (pairs : List (String × String)) (trades : List Trade)
    (p : Nat × Trade) (hp : p ∈ trades.enum) :
    p.1 ∈ check_duplicates_indices pairs trades ↔ (p.2.stock_name, p.2.date) ∈ pairs := by
  constructor
  · intro h
    rcases List.mem_map.mp h with ⟨q, hq, hfst⟩
    have hq' := List.mem_of_mem_filter hq
    have hQ := List.of_mem_filter hq
    have : q = p := enumFrom_fst_inj trades 0 q p hq' hp hfst
    subst this
    exact of_decide_eq_true hQ
  · intro h
    exact List.mem_map.mpr ⟨p, List.mem_filter.mpr ⟨hp, decide_eq_true h⟩, rfl⟩

theorem non_dup_eq_filter (pairs : List (String × String)) (trades : List Trade) :
    non_duplicate_trades trades (check_duplicates_indices pairs trades)
      = trades.filter (fun t => (t.stock_name, t.date) ∉ pairs) := by
  unfold non_duplicate_trades
  rw [enum_eq_enumFrom_zero,
    List.filter_congr (fun p hp => ?_),
    enumFrom_filter_snd (fun t => decide ((t.stock_name, t.date) ∉ pairs)) trades 0]
  exact decide_eq_decide.mpr (not_congr (mem_dup_iff pairs trades p hp))

theorem dup_length_eq (pairs : List (String × String)) (trades : List Trade) :
    (check_duplicates_indices pairs trades).length
      = (trades.filter (fun t => (t.stock_name, t.date) ∈ pairs)).length := by
  unfold check_duplicates_indices
  rw [enum_eq_enumFrom_zero, List.length_map, ← List.length_map _ Prod.snd,
    enumFrom_filter_snd (fun t => decide ((t.stock_name, t.date) ∈ pairs)) trades 0]

/-! ## Claim theorems (first batch) -/

/-- C2: duplicate filtering partitions the input: accepted count plus rejected
count equals the input length, accepted trades keep their original relative
order (they form a sublist of the input, which the pure embedding leaves
unmutated), and no accepted trade's key is in the index built from the
existing rows. -/
theorem C2_filter_partition (rows : List GridRow) (trades : List Trade) :
    (non_duplicate_trades trades (check_duplicates_indices (existing_pairs rows) trades)).length
        + (check_duplicates_indices (existing_pairs rows) trades).length = trades.length
    ∧ (non_duplicate_trades trades (check_duplicates_indices (existing_pairs rows) trades)).Sublist trades
    ∧ ∀ t ∈ non_duplicate_trades trades (check_duplicates_indices (existing_pairs rows) trades),
        (t.stock_name, t.date) ∉ existing_pairs rows := by
  refine ⟨?_, ?_, ?_⟩
  · rw [non_dup_eq_filter, dup_length_eq]
    have h := length_filter_add_length_filter_not
      (fun t => decide ((t.stock_name, t.date) ∈ existing_pairs rows)) trades
    simp only [decide_not] at h ⊢
    omega
  · rw [non_dup_eq_filter]; exact List.filter_sublist trades
  · intro t ht
    rw [non_dup_eq_filter] at ht
    exact of_decide_eq_true (List.mem_filter.mp ht).2

/-- C2 witness: a concrete instantiation with one existing row matching the
second of two new trades; the first trade is accepted and its key is not in
the index. -/
theorem C2_witness :
    ({ date := "2025-01-03", trade_type := "매수", stock_name := "SampleCo",
       stock_code := "", quantity := 1, price := 10, amount := 10,
       currency := "KRW", exchange_rate := 1, amount_krw := 10, fee := 0,
       tax := 0, profit := 0, profit_krw := 0, profit_rate := 0,
       account := "a" : Trade }.stock_name,
     ({ date := "2025-01-03", trade_type := "매수", stock_name := "SampleCo",
        stock_code := "", quantity := 1, price := 10, amount := 10,
        currency := "KRW", exchange_rate := 1, amount_krw := 10, fee := 0,
        tax := 0, profit := 0, profit_krw := 0, profit_rate := 0,
        account := "a" : Trade }).date)
      ∉ existing_pairs [[{ eff := some (.str "DupCo") }, { eff := some (.str "b") },
          { eff := some (.str "2025-01-02") }]] :=
  (C2_filter_partition
    [[{ eff := some (.str "DupCo") }, { eff := some (.str "b") },
      { eff := some (.str "2025-01-02") }]]
    [{ date := "2025-01-03", trade_type := "매수", stock_name := "SampleCo",
       stock_code := "", quantity := 1, price := 10, amount := 10,
       currency := "KRW", exchange_rate := 1, amount_krw := 10, fee := 0,
       tax := 0, profit := 0, profit_krw := 0, profit_rate := 0,
       account := "a" }]).2.2 _ (by decide)

/-- C8: every row the write-payload builders emit has exactly the target
column count: a wider natural projection is truncated, a narrower one is
right-padded with empty strings, for both the writer path (layout widths 9
and 15) and the batch path (detected window width). -/
theorem C8_row_width :
    (∀ (row : List PyVal) (n : Nat), (fit_row row n).length = n)
    ∧ (∀ (row : List PyVal) (n : Nat), n ≤ row.length → fit_row row n = row.take n)
    ∧ (∀ (row : List PyVal) (n : Nat), row.length ≤ n →
        fit_row row n = row ++ List.replicate (n - row.length) (.pstr ""))
    ∧ (∀ (trades : List Trade) (n : Nat), ∀ r ∈ batch_rows_data trades n, r.length = n)
    ∧ (∀ (trades : List Trade) (b : Bool), ∀ r ∈ insert_trades_rows trades b,
        r.length = if b then 15 else 9) := by
  have hlen : ∀ (row : List PyVal) (n : Nat), (fit_row row n).length = n := by
    intro row n
    unfold fit_row
    rcases Nat.lt_trichotomy n row.length with h | h | h
    · simp [h, Nat.le_of_lt h]
    · simp [h.symm, Nat.lt_irrefl]
    · simp [Nat.not_lt_of_lt h, h, Nat.le_of_lt h]
  refine ⟨hlen, ?_, ?_, ?_, ?_⟩
  · intro row n h
    unfold fit_row
    rcases Nat.lt_or_ge n row.length with h' | h'
    · simp [h']
    · have heq : n = row.length := Nat.le_antisymm h h'
      subst heq
      simp [Nat.lt_irrefl, List.take_length]
  · intro row n h
    unfold fit_row
    rcases Nat.lt_or_ge row.length n with h' | h'
    · simp [Nat.not_lt_of_lt h', h']
    · have heq : row.length = n := Nat.le_antisymm h h'
      subst heq
      simp [Nat.lt_irrefl]
  · intro trades n r hr
    rcases List.mem_map.mp hr with ⟨t, _, rfl⟩
    exact hlen _ _
  · intro trades b r hr
    rcases List.mem_map.mp hr with ⟨t, _, rfl⟩
    cases b <;> simp [insert_trades_rows] <;> exact hlen _ _

/-- C8 witness: fitting a 2-wide row to 3 columns pads with one empty string
(and the padded length is 3). -/
theorem C8_witness :
    ((2 : Nat) ≤ ([PyVal.pstr "a", PyVal.pnum 1] : List PyVal).length)
    ∧ fit_row [PyVal.pstr "a", PyVal.pnum 1] 2 = [PyVal.pstr "a", PyVal.pnum 1].take 2 :=
  ⟨by decide, C8_row_width.2.1 [PyVal.pstr "a", PyVal.pnum 1] 2 (by decide)⟩

/-- C9: when the underlying read fails during duplicate detection, both
index-building operations return the empty key set with the failure logged
(second component) and, being total functions, never raise; with the empty
index every new record proceeds to write. -/
theorem C9_fail_open :
    (∀ (e : String) (b : Bool), get_existing_keys b (Except.error e) = ([], true))
    ∧ (∀ (e : String) (trades : List Trade),
        check_duplicates (Except.error e) trades = ([], true))
    ∧ (∀ (e : String) (trades : List Trade),
        non_duplicate_trades trades (check_duplicates (Except.error e) trades).1 = trades) := by
  refine ⟨fun e b => rfl, fun e trades => rfl, fun e trades => ?_⟩
  show non_duplicate_trades trades [] = trades
  unfold non_duplicate_trades
  simp [List.enum_map_snd]

/-! ## String-rendering lemmas for normalization (C1) -/

theorem digitChar_ne_comma (d : Nat) : digitChar d ≠ ',' := by
  unfold digitChar; split <;> decide

theorem natStrAux_chars (fuel : Nat) : ∀ (n : Nat) (acc : List Char) (c : Char),
    c ∈ natStrAux fuel n acc → c ∈ acc ∨ ∃ d, c = digitChar d := by
  induction fuel with
  | zero => intro n acc c h; exact Or.inl h
  | succ fuel ih =>
    intro n acc c h
    unfold natStrAux at h
    by_cases hn : n = 0
    · simp only [hn, if_pos rfl] at h; exact Or.inl h
    · simp only [if_neg hn] at h
      rcases ih _ _ _ h with h' | h'
      · rcases List.mem_cons.mp h' with h'' | h''
        · exact Or.inr ⟨n % 10, h''⟩
        · exact Or.inl h''
      · exact Or.inr h'

theorem natStr_no_comma (n : Nat) : ∀ c ∈ (natStr n).data, c ≠ ',' := by
  intro c hc
  unfold natStr at hc
  by_cases hn : n = 0
  · simp only [hn, if_pos rfl] at hc
    simp at hc
    subst hc; decide
  · simp only [if_neg hn] at hc
    rcases natStrAux_chars (n + 1) n [] c hc with h | ⟨d, hd⟩
    · simp at h
    · rw [hd]; exact digitChar_ne_comma d

theorem intStr_no_comma (z : Int) : ∀ c ∈ (intStr z).data, c ≠ ',' := by
  intro c hc
  unfold intStr at hc
  by_cases hz : z < 0
  · simp only [if_pos hz, String.data_append] at hc
    rcases List.mem_append.mp hc with h | h
    · simp at h; subst h; decide
    · exact natStr_no_comma z.natAbs c h
  · simp only [if_neg hz] at hc
    exact natStr_no_comma z.natAbs c hc

theorem fracDigits_chars (fuel : Nat) : ∀ (r d : Nat) (c : Char),
    c ∈ fracDigits r d fuel → ∃ k, c = digitChar k := by
  induction fuel with
  | zero => intro r d c h; simp [fracDigits] at h
  | succ fuel ih =>
    intro r d c h
    unfold fracDigits at h
    by_cases hr : r = 0
    · simp [hr] at h
    · simp only [if_neg hr] at h
      rcases List.mem_cons.mp h with h' | h'
      · exact ⟨r * 10 / d, h'⟩
      · exact ih _ _ _ h'

theorem pyFloatRepr_no_comma (q : ℚ) : ∀ c ∈ (pyFloatRepr q).data, c ≠ ',' := by
  intro c hc
  unfold pyFloatRepr at hc
  simp only [String.data_append] at hc
  rcases List.mem_append.mp hc with h | h
  · rcases List.mem_append.mp h with h' | h'
    · rcases List.mem_append.mp h' with h'' | h''
      · by_cases hq : q < 0
        · simp only [if_pos hq] at h''
          simp at h''; subst h''; decide
        · simp only [if_neg hq] at h''
          simp at h''
      · exact natStr_no_comma _ c h''
    · simp at h'; subst h'; decide
  · by_cases hr : q.num.natAbs % q.den = 0
    · simp only [if_pos hr] at h
      simp at h; subst h; decide
    · simp only [if_neg hr] at h
      rcases fracDigits_chars 30 _ _ c h with ⟨k, hk⟩
      rw [hk]; exact digitChar_ne_comma k

theorem stripCommas_eq_of_no_comma {s : String} (h : ∀ c ∈ s.data, c ≠ ',') :
    stripCommas s = s := by
  unfold stripCommas
  cases s with
  | mk data =>
    congr 1
    exact List.filter_eq_self.mpr (fun c hc => decide_eq_true (h c hc))

theorem stripCommas_no_comma (s : String) : ∀ c ∈ (stripCommas s).data, c ≠ ',' := by
  intro c hc
  have hc' : c ∈ s.data.filter (fun x => decide (x ≠ ',')) := hc
  have h2 := (List.mem_filter.mp hc').2
  simpa using h2

theorem normalize_no_comma (v : Option PyVal) : ∀ c ∈ (_normalize_num v).data, c ≠ ',' := by
  intro c hc
  match v with
  | none => simp [_normalize_num] at hc
  | some (.pnum q) =>
    unfold _normalize_num at hc
    by_cases hd : q.den = 1
    · simp only [if_pos hd] at hc; exact intStr_no_comma q.num c hc
    · simp only [if_neg hd] at hc; exact pyFloatRepr_no_comma q c hc
  | some (.pstr s) =>
    unfold _normalize_num at hc
    exact stripCommas_no_comma s c hc

/-- C1: the sheet-read normalizer `_normalize_num` and the record-side
`Trade._num_str` agree on every number; an integral number normalizes to the
plain integer string, so any comma-formatted string of the same integer
normalizes to the same canonical string; and normalization is idempotent
(renormalizing an already-normalized value returns it unchanged). -/
theorem C1_normalize_canonical :
    (∀ q : ℚ, _normalize_num (some (.pnum q)) = Trade._num_str q)
    ∧ (∀ z : ℤ, _normalize_num (some (.pnum (z : ℚ))) = intStr z)
    ∧ (∀ (z : ℤ) (s : String), stripCommas s = intStr z →
        _normalize_num (some (.pstr s)) = _normalize_num (some (.pnum (z : ℚ))))
    ∧ (∀ v : Option PyVal,
        _normalize_num (some (.pstr (_normalize_num v))) = _normalize_num v) := by
  have hint : ∀ z : ℤ, _normalize_num (some (.pnum (z : ℚ))) = intStr z := by
    intro z
    show (if ((z : ℚ)).den = 1 then intStr ((z : ℚ)).num else pyFloatRepr (z : ℚ)) = intStr z
    rw [if_pos (Rat.den_intCast z), Rat.num_intCast]
  refine ⟨fun q => rfl, hint, ?_, ?_⟩
  · intro z s h
    show stripCommas s = _
    rw [h, hint]
  · intro v
    show stripCommas (_normalize_num v) = _normalize_num v
    exact stripCommas_eq_of_no_comma (normalize_no_comma v)

/-- C1 witness: `"28,230"` and the numbers `28230` and `2` (Python `28230.0`,
`2.0`, `2` collapse in the rational model) normalize to the same canonical
strings, and renormalizing a normalized string is the identity. -/
theorem C1_witness :
    (stripCommas "28,230" = intStr 28230)
    ∧ _normalize_num (some (.pstr "28,230")) = _normalize_num (some (.pnum ((28230 : ℤ) : ℚ)))
    ∧ _normalize_num (some (.pstr (_normalize_num (some (.pnum 2))))) =
        _normalize_num (some (.pnum 2)) :=
  ⟨by decide,
   C1_normalize_canonical.2.2.1 28230 "28,230" (by decide),
   C1_normalize_canonical.2.2.2 (some (.pnum 2))⟩

/-! ## Scan lemmas (C4, C5, C6) -/

theorem aux_all_empty (t : Nat) :
    ∀ (rows : List GridRow) (i last streak : Nat),
      (∀ r ∈ rows, rowIsEmpty r = true) → lastDataRowAux t rows i last streak = last := by
  intro rows
  induction rows with
  | nil => intro i last streak _; rfl
  | cons r rs ih =>
    intro i last streak h
    have hr : rowIsEmpty r = true := h r (List.mem_cons_self r rs)
    by_cases hb : t ≤ streak + 1
    · simp [lastDataRowAux, hr, hb]
    · simp only [lastDataRowAux, hr, if_true, if_neg hb]
      exact ih _ _ _ (fun x hx => h x (List.mem_cons_of_mem r hx))

theorem aux_skip_empties (t : Nat) :
    ∀ (es : List GridRow) (rest : List GridRow) (i last streak : Nat),
      (∀ r ∈ es, rowIsEmpty r = true) → streak + es.length < t →
      lastDataRowAux t (es ++ rest) i last streak
        = lastDataRowAux t rest (i + es.length) last (streak + es.length) := by
  intro es
  induction es with
  | nil => intro rest i last streak _ _; simp
  | cons e es ih =>
    intro rest i last streak h hlt
    have he : rowIsEmpty e = true := h e (List.mem_cons_self e es)
    have hnb : ¬ t ≤ streak + 1 := by simp only [List.length_cons] at hlt; omega
    have hlt' : streak + 1 + es.length < t := by
      simp only [List.length_cons] at hlt; omega
    simp only [List.cons_append, lastDataRowAux, he, if_true, if_neg hnb]
    have h2 := ih rest (i + 1) last (streak + 1)
      (fun x hx => h x (List.mem_cons_of_mem e hx)) hlt'
    simp only [List.length_cons]
    rw [show i + (es.length + 1) = i + 1 + es.length by omega,
        show streak + (es.length + 1) = streak + 1 + es.length by omega]
    exact h2

theorem lastDataRowAux_eq_fold_trunc (t : Nat) :
    ∀ (rows : List GridRow) (i last streak : Nat),
      lastDataRowAux t rows i last streak
        = lastNonEmptyFoldAux (truncAtGap t rows streak) i last := by
  intro rows
  induction rows with
  | nil => intro i last streak; rfl
  | cons r rs ih =>
    intro i last streak
    by_cases hr : rowIsEmpty r = true
    · by_cases hb : t ≤ streak + 1
      · simp [lastDataRowAux, truncAtGap, lastNonEmptyFoldAux, hr, hb]
      · simp [lastDataRowAux, truncAtGap, lastNonEmptyFoldAux, hr, hb, ih]
    · simp only [Bool.not_eq_true] at hr
      simp [lastDataRowAux, truncAtGap, lastNonEmptyFoldAux, hr, ih]

theorem truncAtGap_idem (t : Nat) :
    ∀ (rows : List GridRow) (streak : Nat),
      truncAtGap t (truncAtGap t rows streak) streak = truncAtGap t rows streak := by
  intro rows
  induction rows with
  | nil => intro streak; rfl
  | cons r rs ih =>
    intro streak
    by_cases hr : rowIsEmpty r = true
    · by_cases hb : t ≤ streak + 1
      · simp [truncAtGap, hr, hb]
      · simp [truncAtGap, hr, hb, ih]
    · simp only [Bool.not_eq_true] at hr
      simp [truncAtGap, hr, ih]

theorem truncAtGap_take (t : Nat) :
    ∀ (rows : List GridRow) (streak : Nat),
      ∃ k, truncAtGap t rows streak = rows.take k := by
  intro rows
  induction rows with
  | nil => intro streak; exact ⟨0, rfl⟩
  | cons r rs ih =>
    intro streak
    by_cases hr : rowIsEmpty r = true
    · by_cases hb : t ≤ streak + 1
      · refine ⟨1, ?_⟩; simp [truncAtGap, hr, hb]
      · rcases ih (streak + 1) with ⟨k, hk⟩
        refine ⟨k + 1, ?_⟩; simp [truncAtGap, hr, hb, hk]
    · simp only [Bool.not_eq_true] at hr
      rcases ih 0 with ⟨k, hk⟩
      refine ⟨k + 1, ?_⟩; simp [truncAtGap, hr, hk]

theorem truncAtGap_ne_nil (t : Nat) (r : GridRow) (rs : List GridRow) (s : Nat) :
    truncAtGap t (r :: rs) s ≠ [] := by
  by_cases hr : rowIsEmpty r = true
  · by_cases hb : t ≤ s + 1 <;> simp [truncAtGap, hr, hb]
  · simp only [Bool.not_eq_true] at hr
    simp [truncAtGap, hr]

theorem truncAtGap_length_le (t : Nat) (rows : List GridRow) (streak : Nat) :
    (truncAtGap t rows streak).length ≤ rows.length := by
  rcases truncAtGap_take t rows streak with ⟨k, hk⟩
  rw [hk, List.length_take]
  exact Nat.min_le_right k rows.length

theorem foldAux_cases :
    ∀ (rows : List GridRow) (i last : Nat),
      lastNonEmptyFoldAux rows i last = last
      ∨ (i ≤ lastNonEmptyFoldAux rows i last
          ∧ lastNonEmptyFoldAux rows i last < i + rows.length) := by
  intro rows
  induction rows with
  | nil => intro i last; exact Or.inl rfl
  | cons r rs ih =>
    intro i last
    by_cases hr : rowIsEmpty r = true
    · rcases ih (i + 1) last with h | h
      · left; simp [lastNonEmptyFoldAux, hr, h]
      · right
        simp only [lastNonEmptyFoldAux, hr, if_true, List.length_cons]
        constructor <;> omega
    · simp only [Bool.not_eq_true] at hr
      rcases ih (i + 1) i with h | h
      · right
        simp only [lastNonEmptyFoldAux, hr, List.length_cons, if_neg, Bool.false_eq_true,
          not_false_iff, if_false, h]
        constructor <;> omega
      · right
        simp only [lastNonEmptyFoldAux, hr, List.length_cons, Bool.false_eq_true,
          not_false_iff, if_false]
        constructor <;> omega

theorem rowColSpanAux_le :
    ∀ (cells : List Cell) (i : Nat) (acc : Option (Nat × Nat)),
      (∀ a b, acc = some (a, b) → a ≤ b ∧ b < i) →
      ∀ a b, rowColSpanAux cells i acc = some (a, b) → a ≤ b := by
  intro cells
  induction cells with
  | nil =>
    intro i acc hacc a b h
    exact (hacc a b h).1
  | cons c cs ih =>
    intro i acc hacc a b h
    by_cases hc : cellNonBlank c = true
    · cases acc with
      | none =>
        simp only [rowColSpanAux, hc, if_true] at h
        refine ih (i + 1) (some (i, i)) ?_ a b h
        intro a' b' h'
        injection h' with h''
        injection h'' with h1 h2
        subst h1; subst h2
        omega
      | some p =>
        rcases p with ⟨s, e⟩
        simp only [rowColSpanAux, hc, if_true] at h
        refine ih (i + 1) (some (s, i)) ?_ a b h
        intro a' b' h'
        injection h' with h''
        injection h'' with h1 h2
        subst h1; subst h2
        have := hacc s e rfl
        omega
    · simp only [rowColSpanAux, hc, Bool.false_eq_true, if_false] at h
      refine ih (i + 1) acc ?_ a b h
      intro a' b' h'
      have := hacc a' b' h'
      omega

theorem rowColSpan_le (cells : List Cell) (a b : Nat)
    (h : rowColSpan cells = some (a, b)) : a ≤ b :=
  rowColSpanAux_le cells 1 none (fun a' b' h' => by cases h') a b h

theorem ldr_bounds (rows : List GridRow) (hne : rows ≠ []) :
    1 ≤ lastNonEmptyIdx rows ∧ lastNonEmptyIdx rows ≤ rows.length := by
  unfold lastNonEmptyIdx
  rcases foldAux_cases rows 1 1 with h | h
  · rw [h]
    refine ⟨Nat.le_refl 1, ?_⟩
    cases rows with
    | nil => exact absurd rfl hne
    | cons r rs => simp only [List.length_cons]; omega
  · exact ⟨h.1, by omega⟩

theorem find_eq_trunc (t : Nat) (rows : List GridRow) :
    find_last_row_with_column_info t rows
      = find_last_row_with_column_info t (truncAtGap t rows 0) := by
  cases rows with
  | nil => rfl
  | cons r rs =>
    unfold find_last_row_with_column_info
    have hldr : lastDataRowAux t (r :: rs) 1 1 0 = lastNonEmptyIdx (truncAtGap t (r :: rs) 0) :=
      lastDataRowAux_eq_fold_trunc t (r :: rs) 1 1 0
    have hldr2 : lastDataRowAux t (truncAtGap t (r :: rs) 0) 1 1 0
        = lastNonEmptyIdx (truncAtGap t (r :: rs) 0) := by
      have h := lastDataRowAux_eq_fold_trunc t (truncAtGap t (r :: rs) 0) 1 1 0
      rw [truncAtGap_idem] at h
      exact h
    rw [hldr, hldr2]
    set L := lastNonEmptyIdx (truncAtGap t (r :: rs) 0) with hLdef
    have htne : truncAtGap t (r :: rs) 0 ≠ [] := truncAtGap_ne_nil t r rs 0
    have hb := ldr_bounds (truncAtGap t (r :: rs) 0) htne
    rw [← hLdef] at hb
    have hlen := truncAtGap_length_le t (r :: rs) 0
    have hc1 : 0 < L ∧ L ≤ (r :: rs).length := ⟨by omega, by omega⟩
    have hc2 : 0 < L ∧ L ≤ (truncAtGap t (r :: rs) 0).length := ⟨by omega, hb.2⟩
    rw [if_pos hc1, if_pos hc2]
    rcases truncAtGap_take t (r :: rs) 0 with ⟨k, hk⟩
    have hmin : (truncAtGap t (r :: rs) 0).length = min k (r :: rs).length := by
      rw [hk, List.length_take]
    have hLk : L - 1 < k := by
      have := Nat.min_le_left k (r :: rs).length
      omega
    congr 2
    rw [List.getD_eq_getElem?_getD, List.getD_eq_getElem?_getD, hk, List.getElem?_take,
      if_pos hLk]

/-- C6: the extent scan never reports a row beyond the first threshold-length
run of consecutive empty rows.  `truncAtGap t rows 0` is the prefix of the
grid ending at the scan's stopping gap; the whole scan result equals the
result on that prefix, appending anything past an interior gap changes
nothing, and the returned next-writable row is the last non-empty row seen
before the gap (header row 1 as floor when none was seen) plus one — both for
the manager scan (parametric threshold) and the writer scan (threshold 100). -/
theorem C6_gap_stop :
    (∀ (t : Nat) (rows : List GridRow),
        find_last_row_with_column_info t rows
          = find_last_row_with_column_info t (truncAtGap t rows 0))
    ∧ (∀ (t : Nat) (rows extra : List GridRow), truncAtGap t rows 0 ≠ rows →
        find_last_row_with_column_info t (rows ++ extra)
          = find_last_row_with_column_info t rows)
    ∧ (∀ (t : Nat) (rows : List GridRow),
        (find_last_row_with_column_info t rows).1
          = lastNonEmptyIdx (truncAtGap t rows 0) + 1)
    ∧ (∀ rows : List GridRow,
        writer_find_last_row rows = lastNonEmptyIdx (truncAtGap 100 rows 0) + 1) := by
  have happ : ∀ (t : Nat) (rows extra : List GridRow) (s : Nat), truncAtGap t rows s ≠ rows →
      truncAtGap t (rows ++ extra) s = truncAtGap t rows s := by
    intro t rows
    induction rows with
    | nil => intro extra s h; exact absurd rfl h
    | cons r rs ih =>
      intro extra s h
      by_cases hr : rowIsEmpty r = true
      · by_cases hb : t ≤ s + 1
        · simp [truncAtGap, hr, hb]
        · have hne : truncAtGap t rs (s + 1) ≠ rs := by
            intro he; apply h; simp [truncAtGap, hr, hb, he]
          simp [truncAtGap, hr, hb, ih extra (s + 1) hne]
      · simp only [Bool.not_eq_true] at hr
        have hne : truncAtGap t rs 0 ≠ rs := by
          intro he; apply h; simp [truncAtGap, hr, he]
        simp [truncAtGap, hr, ih extra 0 hne]
  refine ⟨find_eq_trunc, ?_, ?_, ?_⟩
  · intro t rows extra h
    rw [find_eq_trunc t (rows ++ extra), happ t rows extra 0 h, ← find_eq_trunc t rows]
  · intro t rows
    show lastDataRowAux t rows 1 1 0 + 1 = _
    rw [lastDataRowAux_eq_fold_trunc]
    rfl
  · intro rows
    show lastDataRowAux 100 rows 1 1 0 + 1 = _
    rw [lastDataRowAux_eq_fold_trunc]
    rfl

/-- C6 witness: with threshold 1 the scan of a grid with data, a gap, and
data past the gap equals the scan with the past-gap rows appended removed;
the hypothesis (the cut is interior) holds at this input. -/
theorem C6_witness :
    (truncAtGap 1 [[{ eff := some (.str "x") }], [], [{ eff := some (.str "y") }]] 0
        ≠ [[{ eff := some (.str "x") }], [], [{ eff := some (.str "y") }]])
    ∧ find_last_row_with_column_info 1
        ([[{ eff := some (.str "x") }], [], [{ eff := some (.str "y") }]]
          ++ [[{ eff := some (.str "z") }]])
        = find_last_row_with_column_info 1
            [[{ eff := some (.str "x") }], [], [{ eff := some (.str "y") }]] :=
  ⟨by decide,
   C6_gap_stop.2.1 1
     [[{ eff := some (.str "x") }], [], [{ eff := some (.str "y") }]]
     [[{ eff := some (.str "z") }]] (by decide)⟩

/-- C4 counterexample: a grid whose only non-empty row is the header (one
header cell in column 1) satisfies the claim's hypothesis, yet the scan
returns the header's own column span (2, 1, 1), not the documented default
window (2, 2, 9): the default is used only when the header row itself has no
usable cell. -/
theorem C4_counterexample :
    (∀ r ∈ ([[{ eff := some (.str "date") }]] : List GridRow).drop 1, rowIsEmpty r = true)
    ∧ find_last_row_with_column_info 100 [[{ eff := some (.str "date") }]] = (2, 1, 1)
    ∧ ((2, 1, 1) : Nat × Nat × Nat) ≠ (2, 2, 9) :=
  ⟨by decide, by decide, by decide⟩

/-- C4 (amended): on a grid with no non-empty row beyond the header the scan
returns nextWritableRow = 2, and the column window is the header row's own
non-blank column span with the defaults applied — so (2, 9) exactly when the
header row has no non-empty, non-blank cell. -/
theorem C4_extent_empty_grid (t : Nat) (rows : List GridRow)
    (h : ∀ r ∈ rows.drop 1, rowIsEmpty r = true) :
    find_last_row_with_column_info t rows
      = (2, applyColDefaults (rowColSpan (rows.headD []))) := by
  cases rows with
  | nil => rfl
  | cons hd rest =>
    have hrest : ∀ r ∈ rest, rowIsEmpty r = true := by
      intro r hr
      exact h r (by simpa using hr)
    have hldr : lastDataRowAux t (hd :: rest) 1 1 0 = 1 := by
      by_cases hh : rowIsEmpty hd = true
      · exact aux_all_empty t (hd :: rest) 1 1 0 (by
          intro r hr
          rcases List.mem_cons.mp hr with hr' | hr'
          · rw [hr']; exact hh
          · exact hrest r hr')
      · simp only [Bool.not_eq_true] at hh
        have hstep : lastDataRowAux t (hd :: rest) 1 1 0 = lastDataRowAux t rest 2 1 0 := by
          simp [lastDataRowAux, hh]
        rw [hstep]
        exact aux_all_empty t rest 2 1 0 hrest
    unfold find_last_row_with_column_info
    rw [hldr]
    have hcond : 0 < 1 ∧ 1 ≤ (hd :: rest).length := ⟨Nat.one_pos, by simp⟩
    rw [if_pos hcond, List.getD_eq_getElem?_getD]
    simp

/-- C4 witness: the amended statement applied to a one-row grid whose header
occupies column 1 only (hypothesis discharged by evaluation). -/
theorem C4_witness :
    (∀ r ∈ ([[{ eff := some (.str "date") }]] : List GridRow).drop 1, rowIsEmpty r = true)
    ∧ find_last_row_with_column_info 100 [[{ eff := some (.str "date") }]]
        = (2, applyColDefaults (rowColSpan
            (([[{ eff := some (.str "date") }]] : List GridRow).headD []))) :=
  ⟨by decide, C4_extent_empty_grid 100 [[{ eff := some (.str "date") }]] (by decide)⟩

/-- C5 counterexample: with threshold 1, a grid whose only data row below the
header is row 3 (spanning columns 1–1) makes the scan stop inside the gap at
row 2 and report the header extent instead of (4, 1, 1). -/
theorem C5_counterexample :
    (rowIsEmpty ([{ eff := some (.str "date") }] : GridRow) = false)
    ∧ (rowIsEmpty ([] : GridRow) = true)
    ∧ (rowIsEmpty ([{ eff := some (.str "2025-01-02") }] : GridRow) = false)
    ∧ rowColSpan [({ eff := some (.str "2025-01-02") } : Cell)] = some (1, 1)
    ∧ find_last_row_with_column_info 1
        [[{ eff := some (.str "date") }], [], [{ eff := some (.str "2025-01-02") }]]
        ≠ (4, 1, 1) :=
  ⟨by decide, by decide, by decide, by decide, by decide⟩

/-- C5 (amended): when the header row is non-empty, the only non-empty data
row below it is row R = mid.length + 2 spanning columns c0–c1, and the run of
empty rows between header and data is shorter than the threshold, the scan
returns (R + 1, c0, c1) regardless of the header row's own columns. -/
theorem C5_single_data_row (t : Nat) (hdr d : GridRow) (mid post : List GridRow)
    (c0 c1 : Nat)
    (hhdr : rowIsEmpty hdr = false)
    (hmid : ∀ r ∈ mid, rowIsEmpty r = true)
    (hd : rowIsEmpty d = false)
    (hpost : ∀ r ∈ post, rowIsEmpty r = true)
    (ht : mid.length < t)
    (hspan : rowColSpan d = some (c0, c1)) :
    find_last_row_with_column_info t (hdr :: (mid ++ d :: post))
      = (mid.length + 3, c0, c1) := by
  have hldr : lastDataRowAux t (hdr :: (mid ++ d :: post)) 1 1 0 = mid.length + 2 := by
    have h1 : lastDataRowAux t (hdr :: (mid ++ d :: post)) 1 1 0
        = lastDataRowAux t (mid ++ d :: post) 2 1 0 := by
      simp [lastDataRowAux, hhdr]
    rw [h1, aux_skip_empties t mid (d :: post) 2 1 0 hmid (by omega)]
    have h2 : lastDataRowAux t (d :: post) (2 + mid.length) 1 (0 + mid.length)
        = lastDataRowAux t post (2 + mid.length + 1) (2 + mid.length) 0 := by
      simp [lastDataRowAux, hd]
    rw [h2, aux_all_empty t post _ _ 0 hpost]
    omega
  unfold find_last_row_with_column_info
  rw [hldr]
  have hlen : mid.length + 2 ≤ (hdr :: (mid ++ d :: post)).length := by
    simp only [List.length_cons, List.length_append]
    omega
  rw [if_pos ⟨by omega, hlen⟩]
  have hget : (hdr :: (mid ++ d :: post)).getD (mid.length + 2 - 1) [] = d := by
    show (hdr :: (mid ++ d :: post)).getD (mid.length + 1) [] = d
    rw [List.getD_eq_getElem?_getD, List.getElem?_cons_succ,
      List.getElem?_append_right (Nat.le_refl mid.length), Nat.sub_self,
      List.getElem?_cons_zero]
    rfl
  rw [hget, hspan]
  have hle := rowColSpan_le d c0 c1 hspan
  show (mid.length + 2 + 1, c0, if c1 < c0 then c0 + 7 else c1) = (mid.length + 3, c0, c1)
  rw [if_neg (by omega)]

/-- C5 witness: the amended statement at a two-row grid — header in column 1,
one data row at row 2 spanning (1, 1), no gap — yielding (3, 1, 1). -/
theorem C5_witness :
    find_last_row_with_column_info 100
      [[{ eff := some (.str "date") }], [{ eff := some (.str "2025-01-02") }]]
      = (3, 1, 1) :=
  C5_single_data_row 100 [{ eff := some (.str "date") }]
    [{ eff := some (.str "2025-01-02") }] [] [] 1 1
    (by decide) (by decide) (by decide) (by decide) (by decide) (by decide)

/-! ## C3: where the key's date comes from -/

/-- C3 counterexample: `SheetManager.check_duplicates` — a duplicate-detection
path of the program, called from `process_trading_log` — takes the key's date
from the cell's effective string value, not from its formatted value: on a
row whose date cell displays differently from its stored string, the produced
key carries the effective value. -/
theorem C3_counterexample :
    checkDupRowPair
      [{ eff := some (.str "AAPL") }, {},
       { eff := some (.str "2025-01-02"), formatted := some "2025. 1. 2" }]
      = some ("AAPL", "2025-01-02")
    ∧ ({ eff := some (.str "2025-01-02"), formatted := some "2025. 1. 2" } : Cell).formatted
        = some "2025. 1. 2"
    ∧ ("2025-01-02" : String) ≠ "2025. 1. 2" :=
  ⟨by decide, rfl, by decide⟩

/-- C3 (amended): `SheetWriter.get_existing_keys` does take every contributed
key's date from the formatted value of the row's first cell (and only
non-blank formatted dates contribute), but `SheetManager.check_duplicates`
takes its date from the effective string value of the row's third cell — so
the formatted-value rule holds on the writer path, not on every
duplicate-detection path. -/
theorem C3_date_source :
    (∀ (b : Bool) (cells : List Cell) (k : String × String × String × String × String),
        getExistingKeysRow b cells = some k →
          k.1 = (cells.getD 0 default).formatted.getD "" ∧ k.1 ≠ "")
    ∧ (∀ (cells : List Cell) (p : String × String),
        checkDupRowPair cells = some p →
          (cells.getD 2 default).eff = some (.str p.2)) := by
  constructor
  · intro b cells k h
    unfold getExistingKeysRow at h
    by_cases h5 : 5 ≤ cells.length
    · rw [if_pos h5] at h
      by_cases hdv : (cells.getD 0 default).formatted.getD "" = ""
      · rw [if_pos hdv] at h
        exact Option.noConfusion h
      · rw [if_neg hdv] at h
        by_cases hf : b = true ∧ 7 ≤ cells.length
        · rw [if_pos hf] at h
          injection h with h'
          subst h'
          exact ⟨rfl, hdv⟩
        · rw [if_neg hf] at h
          injection h with h'
          subst h'
          exact ⟨rfl, hdv⟩
    · rw [if_neg h5] at h
      exact Option.noConfusion h
  · intro cells p h
    unfold checkDupRowPair at h
    by_cases h3 : 3 ≤ cells.length
    · rw [if_pos h3] at h
      cases he0 : (cells.getD 0 default).eff with
      | none => rw [he0] at h; simp at h
      | some v0 =>
        cases he2 : (cells.getD 2 default).eff with
        | none => rw [he0, he2] at h; simp at h
        | some v2 =>
          rw [he0, he2] at h
          cases v2 with
          | str s =>
            cases v0 with
            | str s0 =>
              have h' : (if s0 ≠ "" ∧ s ≠ "" then some (s0, s) else none) = some p := h
              by_cases hc : s0 ≠ "" ∧ s ≠ ""
              · rw [if_pos hc] at h'
                injection h' with h''
                subst h''
                rfl
              · rw [if_neg hc] at h'
                exact Option.noConfusion h'
            | num q => simp at h
            | bool b2 => simp at h
          | num q => simp at h
          | bool b2 => simp at h
    · rw [if_neg h3] at h
      exact Option.noConfusion h

/-- C3 witness: the amended statement applied to a concrete 5-cell domestic
row (writer path: the key's date is the first cell's formatted value) — the
hypothesis is discharged by evaluation. -/
theorem C3_witness :
    (("2025-01-02", "매수", "SampleCo", "2", "28230") :
        String × String × String × String × String).1
      = (([{ eff := some (.str "2025-01-02"), formatted := some "2025-01-02" },
          { eff := some (.str "매수") }, { eff := some (.str "SampleCo") },
          { eff := some (.num 2) }, { eff := some (.num 28230) }] : List Cell).getD 0
            default).formatted.getD ""
    ∧ (("2025-01-02", "매수", "SampleCo", "2", "28230") :
        String × String × String × String × String).1 ≠ "" :=
  C3_date_source.1 false
    [{ eff := some (.str "2025-01-02"), formatted := some "2025-01-02" },
     { eff := some (.str "매수") }, { eff := some (.str "SampleCo") },
     { eff := some (.num 2) }, { eff := some (.num 28230) }]
    ("2025-01-02", "매수", "SampleCo", "2", "28230") (by decide)

/-! ## C7: write/read round trip -/

/-- C7: writing a trade to its sheet row (profit rate divided by 100 at write
time, zero written as the literal 0) and reading the row back through the
inverse path (date from the formatted value, numbers from effective values,
rate multiplied by 100) reproduces the profit rate exactly in the rational
model and rebuilds a record whose duplicate key equals the original's, on
both the domestic and the foreign layout. -/
theorem C7_roundtrip (t : Trade) (acct : String) (hdate : t.date ≠ "") :
    ((read_row (write_domestic_cells t) acct false).map Trade.profit_rate
        = some t.profit_rate
      ∧ (read_row (write_domestic_cells t) acct false).map Trade.duplicate_key
        = some t.duplicate_key)
    ∧ ((read_row (write_foreign_cells t) acct true).map Trade.profit_rate
        = some t.profit_rate
      ∧ (read_row (write_foreign_cells t) acct true).map Trade.duplicate_key
        = some t.duplicate_key) := by
  have hrate : (if t.profit_rate = 0 then (0 : ℚ) else t.profit_rate / 100) * 100
      = t.profit_rate := by
    by_cases h0 : t.profit_rate = 0
    · simp [h0]
    · rw [if_neg h0, div_mul_cancel₀ _ (by norm_num : (100 : ℚ) ≠ 0)]
  refine ⟨⟨?_, ?_⟩, ⟨?_, ?_⟩⟩ <;>
    simp [read_row, write_domestic_cells, write_foreign_cells, Trade.to_domestic_row,
      Trade.to_foreign_row, cellOfScalar, _row_to_trade, _get_num, _get_str, hdate,
      Trade.duplicate_key, hrate]

/-- C7 witness: a concrete domestic trade with a nonzero profit rate and a
non-blank date round-trips with the same rate and key. -/
theorem C7_witness :
    ((read_row (write_domestic_cells
        { date := "2025-01-02", trade_type := "매수", stock_name := "SampleCo",
          stock_code := "", quantity := 2, price := 28230, amount := 56460,
          currency := "KRW", exchange_rate := 1, amount_krw := 56460, fee := 10,
          tax := 0, profit := 0, profit_krw := 0, profit_rate := 12,
          account := "미래에셋증권_국내계좌" }) "미래에셋증권_국내계좌" false).map
        Trade.profit_rate = some 12
      ∧ (read_row (write_domestic_cells
          { date := "2025-01-02", trade_type := "매수", stock_name := "SampleCo",
            stock_code := "", quantity := 2, price := 28230, amount := 56460,
            currency := "KRW", exchange_rate := 1, amount_krw := 56460, fee := 10,
            tax := 0, profit := 0, profit_krw := 0, profit_rate := 12,
            account := "미래에셋증권_국내계좌" }) "미래에셋증권_국내계좌" false).map
          Trade.duplicate_key
        = some { date := "2025-01-02", trade_type := "매수", stock_name := "SampleCo",
                 stock_code := "", quantity := 2, price := 28230, amount := 56460,
                 currency := "KRW", exchange_rate := 1, amount_krw := 56460, fee := 10,
                 tax := 0, profit := 0, profit_krw := 0, profit_rate := 12,
                 account := "미래에셋증권_국내계좌" : Trade }.duplicate_key)
    ∧ ((read_row (write_foreign_cells
        { date := "2025-01-02", trade_type := "매수", stock_name := "SampleCo",
          stock_code := "", quantity := 2, price := 28230, amount := 56460,
          currency := "KRW", exchange_rate := 1, amount_krw := 56460, fee := 10,
          tax := 0, profit := 0, profit_krw := 0, profit_rate := 12,
          account := "미래에셋증권_국내계좌" }) "미래에셋증권_국내계좌" true).map
        Trade.profit_rate = some 12
      ∧ (read_row (write_foreign_cells
          { date := "2025-01-02", trade_type := "매수", stock_name := "SampleCo",
            stock_code := "", quantity := 2, price := 28230, amount := 56460,
            currency := "KRW", exchange_rate := 1, amount_krw := 56460, fee := 10,
            tax := 0, profit := 0, profit_krw := 0, profit_rate := 12,
            account := "미래에셋증권_국내계좌" }) "미래에셋증권_국내계좌" true).map
          Trade.duplicate_key
        = some { date := "2025-01-02", trade_type := "매수", stock_name := "SampleCo",
                 stock_code := "", quantity := 2, price := 28230, amount := 56460,
                 currency := "KRW", exchange_rate := 1, amount_krw := 56460, fee := 10,
                 tax := 0, profit := 0, profit_krw := 0, profit_rate := 12,
                 account := "미래에셋증권_국내계좌" : Trade }.duplicate_key) :=
  C7_roundtrip
    { date := "2025-01-02", trade_type := "매수", stock_name := "SampleCo",
      stock_code := "", quantity := 2, price := 28230, amount := 56460,
      currency := "KRW", exchange_rate := 1, amount_krw := 56460, fee := 10,
      tax := 0, profit := 0, profit_krw := 0, profit_rate := 12,
      account := "미래에셋증권_국내계좌" } "미래에셋증권_국내계좌" (by decide)

/-! ## C10: NFC dedup of sheet names -/

theorem readAux_not_seen (nfc : String → String) :
    ∀ (ns seen : List String) (x : String),
      x ∈ readSheetNamesAux nfc ns seen → nfc x ∉ seen := by
  intro ns
  induction ns with
  | nil => intro seen x h; simp [readSheetNamesAux] at h
  | cons n ns ih =>
    intro seen x h
    unfold readSheetNamesAux at h
    by_cases hn : nfc n ∈ seen
    · rw [if_pos hn] at h
      exact ih seen x h
    · rw [if_neg hn] at h
      rcases List.mem_cons.mp h with h' | h'
      · subst h'; exact hn
      · intro hx
        exact ih (nfc n :: seen) x h' (List.mem_cons_of_mem _ hx)

theorem readAux_nodup (nfc : String → String) :
    ∀ (ns seen : List String), ((readSheetNamesAux nfc ns seen).map nfc).Nodup := by
  intro ns
  induction ns with
  | nil => intro seen; simp [readSheetNamesAux]
  | cons n ns ih =>
    intro seen
    unfold readSheetNamesAux
    by_cases hn : nfc n ∈ seen
    · rw [if_pos hn]; exact ih seen
    · rw [if_neg hn]
      simp only [List.map_cons]
      refine List.nodup_cons.mpr ⟨?_, ih (nfc n :: seen)⟩
      intro hmem
      rcases List.mem_map.mp hmem with ⟨x, hx, hfx⟩
      exact readAux_not_seen nfc ns (nfc n :: seen) x hx
        (by rw [hfx]; exact List.mem_cons_self _ _)

theorem readAux_sublist (nfc : String → String) :
    ∀ (ns seen : List String), (readSheetNamesAux nfc ns seen).Sublist ns := by
  intro ns
  induction ns with
  | nil => intro seen; exact List.Sublist.refl []
  | cons n ns ih =>
    intro seen
    unfold readSheetNamesAux
    by_cases hn : nfc n ∈ seen
    · rw [if_pos hn]
      exact (ih seen).trans (List.sublist_cons_self n ns)
    · rw [if_neg hn]
      exact List.Sublist.cons₂ n (ih (nfc n :: seen))

theorem readAux_mem_iff (nfc : String → String) :
    ∀ (ns seen : List String) (x : String), x ∈ ns →
      (x ∈ readSheetNamesAux nfc ns seen
        ↔ (nfc x ∉ seen ∧ ns.find? (fun m => nfc m == nfc x) = some x)) := by
  intro ns
  induction ns with
  | nil => intro seen x hx; simp at hx
  | cons n ns ih =>
    intro seen x hx
    unfold readSheetNamesAux
    by_cases hfe : nfc n = nfc x
    · have hfind : List.find? (fun m => nfc m == nfc x) (n :: ns) = some n :=
        List.find?_cons_of_pos ns (by simp [hfe])
      rw [hfind]
      by_cases hn : nfc n ∈ seen
      · rw [if_pos hn]
        have hxseen : nfc x ∈ seen := hfe ▸ hn
        apply iff_of_false
        · intro hmem
          exact readAux_not_seen nfc ns seen x hmem hxseen
        · intro hcontra
          exact hcontra.1 hxseen
      · rw [if_neg hn]
        constructor
        · intro hmem
          rcases List.mem_cons.mp hmem with h' | h'
          · subst h'
            exact ⟨hfe ▸ hn, rfl⟩
          · exact absurd (by rw [← hfe]; exact List.mem_cons_self _ _)
              (readAux_not_seen nfc ns (nfc n :: seen) x h')
        · intro hcontra
          have : n = x := by
            injection hcontra.2 with h'
          rw [← this]
          exact List.mem_cons_self _ _
    · have hfind : List.find? (fun m => nfc m == nfc x) (n :: ns)
          = List.find? (fun m => nfc m == nfc x) ns :=
        List.find?_cons_of_neg ns (by simp [hfe])
      rw [hfind]
      have hxn : x ≠ n := by
        intro he
        exact hfe (by rw [he])
      have hx' : x ∈ ns := by
        rcases List.mem_cons.mp hx with h' | h'
        · exact absurd h' hxn
        · exact h'
      by_cases hn : nfc n ∈ seen
      · rw [if_pos hn]
        exact ih seen x hx'
      · rw [if_neg hn]
        have hIH := ih (nfc n :: seen) x hx'
        constructor
        · intro hmem
          rcases List.mem_cons.mp hmem with h' | h'
          · exact absurd h' hxn
          · have h2 := hIH.mp h'
            exact ⟨fun hs => h2.1 (List.mem_cons_of_mem _ hs), h2.2⟩
        · intro hcontra
          apply List.mem_cons_of_mem
          apply hIH.mpr
          refine ⟨?_, hcontra.2⟩
          intro hmem2
          rcases List.mem_cons.mp hmem2 with h' | h'
          · exact hfe h'.symm
          · exact hcontra.1 h'

/-- C10: the read-all loop's NFC guard reads, among the listed sheet names, a
subsequence whose NFC images are pairwise distinct (each normalized name read
at most once), and a name is read exactly when it is the first name of the
list with its NFC class — later NFC-equal occurrences are skipped.  The NFC
normalization is an external pure function, universally quantified. -/
theorem C10_nfc_dedup (nfc : String → String) (names : List String) :
    (read_sheet_names nfc names).Sublist names
    ∧ ((read_sheet_names nfc names).map nfc).Nodup
    ∧ (∀ x ∈ names,
        x ∈ read_sheet_names nfc names
          ↔ names.find? (fun m => nfc m == nfc x) = some x) := by
  refine ⟨readAux_sublist nfc names [], readAux_nodup nfc names [], ?_⟩
  intro x hx
  have h := readAux_mem_iff nfc names [] x hx
  simpa using h

/-- C10 witness: with the identity normalization and a repeated name, the
first-occurrence characterization holds at the concrete name. -/
theorem C10_witness :
    ("a" ∈ read_sheet_names id ["a", "b", "a"]
      ↔ (["a", "b", "a"].find? (fun m => id m == id "a") = some "a")) :=
  (C10_nfc_dedup id ["a", "b", "a"]).2.2 "a" (by decide)
